import Mathlib

/-!
Shallow embedding of the repository scanner in src/main.cc (lsrepostat).

The program scans directory trees for git repositories and reports which
ones have uncommitted, untracked, unstaged, or unpushed work.  We embed:

* the mode bit mask and the getopt-based flag parsing in main;
* the reporter block of Recurse (the four message conditions and the
  printed lines), including its literal message strings and its use of a
  bitwise OR in the enable test;
* the execution-result interpretation of the four GitChecker queries
  (HasUncommitted, HasUnstaged, HasUntracked, HasUnpushed), with external
  command outcomes supplied as explicit data;
* TrimRight on lists of characters, with the C isspace predicate;
* the directory walk (Recurse / RecurseSubdirs) over an explicit
  filesystem tree, instrumented with the list of paths on which the
  status checker is invoked and the list of immediate child recursions;
* the root-argument loop of main.
-/

/-! ## Mode mask (enum Mode, src/main.cc lines 39-46) -/

def kNone : Nat := 0

def kUncommitted : Nat := 1

def kUntracked : Nat := 2

def kUnstaged : Nat := 4

def kUnpushed : Nat := 8

def kAny : Nat := kUncommitted ||| kUntracked ||| kUnstaged ||| kUnpushed

/-! ## Flag parsing (main, src/main.cc lines 63-88)

getopt is called with the option string "utspa".  For an option letter in
that string getopt returns the letter itself; for any other letter it
returns the character '?'.  The switch in main handles the returned
values 'c', 't', 's', 'p', 'a', and everything else falls to the default
branch, which prints usage and returns 2. -/

def optstring : List Char := ['u', 't', 's', 'p', 'a']

def getoptClass (c : Char) : Char :=
  if c ∈ optstring then c else '?'

def parseFlags : Nat → List Char → Except Nat Nat
  | mode, [] => Except.ok mode
  | mode, c :: cs =>
    match getoptClass c with
    | 'c' => parseFlags (mode ||| kUncommitted) cs
    | 't' => parseFlags (mode ||| kUntracked) cs
    | 's' => parseFlags (mode ||| kUnstaged) cs
    | 'p' => parseFlags (mode ||| kUnpushed) cs
    | 'a' => parseFlags kAny cs
    | _ => Except.error 2

/-! ## Reporter block of Recurse (src/main.cc lines 326-337)

Each condition in the source reads, for example,
mode | kUncommitted && checker->HasUncommitted(); the bitwise OR binds
tighter than the logical AND, so the left operand is the integer
mode | kUncommitted, which is truthy iff it is nonzero.  The four checker
results enter as booleans. -/

def reportMesgs (mode : Nat) (uncommitted untracked unstaged unpushed : Bool) :
    List String :=
  (if (mode ||| kUncommitted) ≠ 0 ∧ uncommitted = true
    then ["has uncommited changes"] else [])
  ++ (if (mode ||| kUntracked) ≠ 0 ∧ untracked = true
    then ["has untracked changes"] else [])
  ++ (if (mode ||| kUnstaged) ≠ 0 ∧ unstaged = true
    then ["has unstaged changes"] else [])
  ++ (if (mode ||| kUnpushed) ≠ 0 ∧ unpushed = true
    then ["has unpushed changes"] else [])

def reportLines (path : String) (mode : Nat)
    (uncommitted untracked unstaged unpushed : Bool) : List String :=
  (reportMesgs mode uncommitted untracked unstaged unpushed).map
    (fun m => path ++ " " ++ m)

/-! ## Execution results (ExecStatus / ExecInDir, src/main.cc lines 103-209)

Running one external command yields an exit status (0 on a normal exit
with status 0, otherwise 1) and the captured standard output.  ExecInDir
additionally derives the emptiness of the output. -/

structure ExecResult where
  ret : Nat
  out : String
deriving DecidableEq, Repr

structure ExecStatus where
  ret : Nat
  empty : Bool
deriving DecidableEq, Repr

def execInDir (r : ExecResult) : ExecStatus :=
  { ret := r.ret, empty := r.out.length == 0 }

/-! ## TrimRight (src/main.cc lines 249-258)

The loop scans from the last character towards the front while isspace
holds and cuts the string there; equivalently it drops the maximal run
of trailing isspace characters.  In the C locale isspace accepts space,
tab, newline, vertical tab, form feed, and carriage return. -/

def isSpaceChar (c : Char) : Bool :=
  c = ' ' || c = '\t' || c = '\n' || c = Char.ofNat 11 || c = Char.ofNat 12
    || c = '\r'

def trimRight (s : List Char) : List Char :=
  (s.reverse.dropWhile isSpaceChar).reverse

def trimRightStr (s : String) : String :=
  String.mk (trimRight s.data)

/-! ## GitChecker queries (src/main.cc lines 233-288)

Each query interprets the results of fixed git commands.  The commands
themselves are external; their outcomes enter the model as explicit
ExecResult values.  HasUnpushed issues four commands in sequence, where
later commands take earlier (trimmed) outputs as arguments, so its
environment carries the two argument-taking commands as functions. -/

namespace GitChecker

def hasUncommitted (diffIndexCached : ExecResult) : Bool :=
  (execInDir diffIndexCached).ret != 0

def hasUnstaged (diffFiles : ExecResult) : Bool :=
  (execInDir diffFiles).ret != 0

def hasUntracked (lsFilesOther : ExecResult) : Bool :=
  !(execInDir lsFilesOther).empty

structure GitEnv where
  symbolicRefHEAD : ExecResult
  revParse : String → ExecResult
  forEachRefUpstream : String → ExecResult

def hasUnpushed (env : GitEnv) : Bool :=
  let r1 := env.symbolicRefHEAD
  if r1.ret ≠ 0 then false else
  let localName := trimRightStr r1.out
  let r2 := env.revParse localName
  if r2.ret ≠ 0 then false else
  let localRev := trimRightStr r2.out
  let r3 := env.forEachRefUpstream localName
  if r3.ret ≠ 0 then false else
  let remoteName := trimRightStr r3.out
  let r4 := env.revParse remoteName
  if r4.ret ≠ 0 then false else
  let remoteRev := trimRightStr r4.out
  decide (localRev ≠ remoteRev)

end GitChecker

/-! ## Filesystem trees and the walk (Recurse / RecurseSubdirs,
src/main.cc lines 290-342)

A directory is modelled by whether stat on it fails, whether it has a
.git subdirectory, and its readdir entry list.  Each entry carries its
d_name, whether its d_type is DT_DIR, and the subtree behind it.  The
walk result is instrumented with the list of paths on which a checker is
constructed (in output order) and, for the topmost call, the list of
child paths handed to a recursive Recurse call. -/

mutual
inductive FSTree : Type where
  | node (statFails : Bool) (hasGit : Bool) (entries : Entries)
deriving DecidableEq, Repr
inductive Entries : Type where
  | nil : Entries
  | cons (name : String) (isDir : Bool) (sub : FSTree) (rest : Entries) : Entries
deriving DecidableEq, Repr
end

def FSTree.statFails : FSTree → Bool
  | .node sf _ _ => sf

def FSTree.hasGit : FSTree → Bool
  | .node _ hg _ => hg

def FSTree.entries : FSTree → Entries
  | .node _ _ es => es

structure WalkResult where
  ret : Nat
  checked : List String
  calls : List String
deriving DecidableEq, Repr

mutual
def recurse (path : String) : FSTree → WalkResult
  | .node sf hg es =>
    if sf then ⟨1, [], []⟩
    else if hg then ⟨0, [path], []⟩
    else recurseSubdirs path es

def recurseSubdirs (path : String) : Entries → WalkResult
  | .nil => ⟨0, [], []⟩
  | .cons name isDir sub rest =>
    if isDir = false then recurseSubdirs path rest
    else if name = "." ∨ name = ".." then recurseSubdirs path rest
    else
      let p := path ++ "/" ++ name
      let r := recurse p sub
      if r.ret ≠ 0 then ⟨r.ret, r.checked, [p]⟩
      else
        let rr := recurseSubdirs path rest
        ⟨rr.ret, r.checked ++ rr.checked, p :: rr.calls⟩
end

mutual
def noStatFail : FSTree → Bool
  | .node sf _ es => !sf && noStatFailEntries es

def noStatFailEntries : Entries → Bool
  | .nil => true
  | .cons _ _ sub rest => noStatFail sub && noStatFailEntries rest
end

def dirEntryNames : Entries → List String
  | .nil => []
  | .cons name isDir _ rest =>
    if isDir = true ∧ name ≠ "." ∧ name ≠ ".."
      then name :: dirEntryNames rest
      else dirEntryNames rest

def childCallPaths (path : String) (es : Entries) : List String :=
  (dirEntryNames es).map (fun n => path ++ "/" ++ n)

/-! ## Root loop of main (src/main.cc lines 90-101)

With no positional arguments, main returns Recurse(".", mode).  With
positional arguments, the roots are processed left to right and the
first nonzero Recurse return value is returned immediately; otherwise
main returns 0.  Alongside the exit code we keep the concatenation of
the checker-invocation paths of the roots actually walked. -/

def runRoots : List (String × FSTree) → Nat × List String
  | [] => (0, [])
  | (p, t) :: rest =>
    let r := recurse p t
    if r.ret ≠ 0 then (r.ret, r.checked)
    else
      let rr := runRoots rest
      (rr.1, r.checked ++ rr.2)

def mainScan (args : List (String × FSTree)) (cwd : FSTree) : Nat × List String :=
  if args = [] then ((recurse "." cwd).ret, (recurse "." cwd).checked)
  else runRoots args

/-! ## Helper lemmas -/

theorem dropWhile_head_not {α : Type} (p : α → Bool) :
    ∀ (l : List α) (c : α), (List.dropWhile p l).head? = some c → p c = false := by
  intro l
  induction l with
  | nil => intro c hc; simp [List.dropWhile] at hc
  | cons a l ih =>
    intro c hc
    by_cases ha : p a = true
    · rw [List.dropWhile_cons, if_pos ha] at hc
      exact ih c hc
    · rw [List.dropWhile_cons, if_neg ha] at hc
      simp at hc
      subst hc
      simpa using ha

theorem suffix_length_le_dropWhile {α : Type} (p : α → Bool) :
    ∀ (l t : List α), t <:+ l → (∀ c, t.head? = some c → p c = false) →
      t.length ≤ (List.dropWhile p l).length := by
  intro l
  induction l with
  | nil =>
    intro t ht _
    have : t = [] := List.suffix_nil.mp ht
    simp [this]
  | cons a l ih =>
    intro t ht hhd
    rcases List.suffix_cons_iff.mp ht with heq | hsuf
    · subst heq
      have ha : p a = false := hhd a rfl
      rw [List.dropWhile_cons, if_neg (by simp [ha])]
    · by_cases ha : p a = true
      · rw [List.dropWhile_cons, if_pos ha]
        exact ih t hsuf hhd
      · rw [List.dropWhile_cons, if_neg ha]
        exact Nat.le_trans hsuf.length_le (Nat.le_succ _)

theorem dropWhile_dropWhile {α : Type} (p : α → Bool) :
    ∀ l : List α, List.dropWhile p (List.dropWhile p l) = List.dropWhile p l := by
  intro l
  induction l with
  | nil => simp
  | cons a l ih =>
    by_cases ha : p a = true
    · rw [List.dropWhile_cons, if_pos ha, ih]
    · rw [List.dropWhile_cons, if_neg ha, List.dropWhile_cons, if_neg ha]

mutual

theorem recurse_ret_zero (path : String) :
    ∀ t : FSTree, noStatFail t = true → (recurse path t).ret = 0
  | FSTree.node sf hg es, h => by
    simp only [noStatFail, Bool.and_eq_true, Bool.not_eq_true'] at h
    obtain ⟨hsf, hes⟩ := h
    subst hsf
    cases hg with
    | true => simp [recurse]
    | false =>
      simp only [recurse, Bool.false_eq_true, if_false]
      exact recurseSubdirs_ret_zero path es hes

theorem recurseSubdirs_ret_zero (path : String) :
    ∀ es : Entries, noStatFailEntries es = true → (recurseSubdirs path es).ret = 0
  | Entries.nil, _ => by simp [recurseSubdirs]
  | Entries.cons name isDir sub rest, h => by
    simp only [noStatFailEntries, Bool.and_eq_true] at h
    obtain ⟨hsub, hrest⟩ := h
    by_cases hd : isDir = false
    · simp only [recurseSubdirs, if_pos hd]
      exact recurseSubdirs_ret_zero path rest hrest
    · by_cases hn : name = "." ∨ name = ".."
      · simp only [recurseSubdirs, if_neg hd, if_pos hn]
        exact recurseSubdirs_ret_zero path rest hrest
      · have hr : (recurse (path ++ "/" ++ name) sub).ret = 0 :=
          recurse_ret_zero (path ++ "/" ++ name) sub hsub
        have hrr : (recurseSubdirs path rest).ret = 0 :=
          recurseSubdirs_ret_zero path rest hrest
        simp only [recurseSubdirs, if_neg hd, if_neg hn]
        simp [hr, hrr]

end

mutual

theorem recurse_checked_le (path : String) :
    ∀ t : FSTree, ∀ q ∈ (recurse path t).checked, path.length ≤ q.length
  | FSTree.node sf hg es => by
    intro q hq
    by_cases hsf : sf = true
    · simp [recurse, hsf] at hq
    · replace hsf : sf = false := by cases sf <;> simp_all
      subst hsf
      cases hg with
      | true =>
        simp [recurse] at hq
        subst hq
        exact Nat.le_refl _
      | false =>
        simp only [recurse, Bool.false_eq_true, if_false] at hq
        exact Nat.le_of_succ_le (recurseSubdirs_checked_succ path es q hq)

theorem recurseSubdirs_checked_succ (path : String) :
    ∀ es : Entries, ∀ q ∈ (recurseSubdirs path es).checked,
      path.length + 1 ≤ q.length
  | Entries.nil => by
    intro q hq
    simp [recurseSubdirs] at hq
  | Entries.cons name isDir sub rest => by
    intro q hq
    have hlen : (path ++ "/" ++ name).length = path.length + 1 + name.length := by
      have h1 : ("/" : String).length = 1 := rfl
      simp [String.length_append, h1]
    by_cases hd : isDir = false
    · simp only [recurseSubdirs, if_pos hd] at hq
      exact recurseSubdirs_checked_succ path rest q hq
    · by_cases hn : name = "." ∨ name = ".."
      · simp only [recurseSubdirs, if_neg hd, if_pos hn] at hq
        exact recurseSubdirs_checked_succ path rest q hq
      · simp only [recurseSubdirs, if_neg hd, if_neg hn] at hq
        split at hq
        · have hle := recurse_checked_le (path ++ "/" ++ name) sub q hq
          rw [hlen] at hle
          omega
        · simp only [List.mem_append] at hq
          rcases hq with hq | hq
          · have hle := recurse_checked_le (path ++ "/" ++ name) sub q hq
            rw [hlen] at hle
            omega
          · exact recurseSubdirs_checked_succ path rest q hq

end

theorem recurseSubdirs_calls_eq (path : String) :
    ∀ es : Entries, noStatFailEntries es = true →
      (recurseSubdirs path es).calls = childCallPaths path es
  | Entries.nil, _ => by
    simp [recurseSubdirs, childCallPaths, dirEntryNames]
  | Entries.cons name isDir sub rest, h => by
    simp only [noStatFailEntries, Bool.and_eq_true] at h
    obtain ⟨hsub, hrest⟩ := h
    have hrec := recurseSubdirs_calls_eq path rest hrest
    by_cases hd : isDir = false
    · simp only [recurseSubdirs, if_pos hd, childCallPaths, dirEntryNames]
      rw [if_neg (by simp [hd])]
      simpa [childCallPaths] using hrec
    · by_cases hn : name = "." ∨ name = ".."
      · simp only [recurseSubdirs, if_neg hd, if_pos hn, childCallPaths,
          dirEntryNames]
        rw [if_neg (by rcases hn with hn | hn <;> simp [hn])]
        simpa [childCallPaths] using hrec
      · have hr : (recurse (path ++ "/" ++ name) sub).ret = 0 :=
          recurse_ret_zero (path ++ "/" ++ name) sub hsub
        have hd' : isDir = true := by cases isDir <;> simp_all
        have hcond : isDir = true ∧ name ≠ "." ∧ name ≠ ".." :=
          ⟨hd', (not_or.mp hn).1, (not_or.mp hn).2⟩
        simp only [recurseSubdirs, if_neg hd, if_neg hn, childCallPaths,
          dirEntryNames, if_pos hcond, List.map_cons]
        split
        · simp_all
        · simpa [childCallPaths] using hrec

theorem runRoots_ret_zero :
    ∀ roots : List (String × FSTree),
      (∀ x ∈ roots, noStatFail x.2 = true) → (runRoots roots).1 = 0
  | [], _ => rfl
  | (p, t) :: rest, h => by
    have ht : (recurse p t).ret = 0 := recurse_ret_zero p t (h (p, t) (by simp))
    have hrest : (runRoots rest).1 = 0 :=
      runRoots_ret_zero rest (fun x hx => h x (by simp [hx]))
    simp [runRoots, ht, hrest]

theorem pathAppend_injective (path : String) :
    Function.Injective (fun n : String => path ++ "/" ++ n) := by
  intro a b hab
  have h := congrArg String.data hab
  simp only [String.data_append] at h
  exact String.ext (List.append_cancel_left h)

theorem lor_ne_zero_of_testBit (m k i : Nat) (h : k.testBit i = true) :
    m ||| k ≠ 0 := by
  intro h0
  have hb := congrArg (fun x => Nat.testBit x i) h0
  simp [Nat.testBit_or, h] at hb

theorem reportMesgs_unfold (mode : Nat) (uc ut us up : Bool) :
    reportMesgs mode uc ut us up
      = (if uc then ["has uncommited changes"] else [])
        ++ (if ut then ["has untracked changes"] else [])
        ++ (if us then ["has unstaged changes"] else [])
        ++ (if up then ["has unpushed changes"] else []) := by
  have h1 : (mode ||| kUncommitted) ≠ 0 :=
    lor_ne_zero_of_testBit mode kUncommitted 0 (by decide)
  have h2 : (mode ||| kUntracked) ≠ 0 :=
    lor_ne_zero_of_testBit mode kUntracked 1 (by decide)
  have h3 : (mode ||| kUnstaged) ≠ 0 :=
    lor_ne_zero_of_testBit mode kUnstaged 2 (by decide)
  have h4 : (mode ||| kUnpushed) ≠ 0 :=
    lor_ne_zero_of_testBit mode kUnpushed 3 (by decide)
  simp [reportMesgs, h1, h2, h3, h4]

theorem string_length_eq_zero_iff (s : String) : s.length = 0 ↔ s = "" := by
  constructor
  · intro h
    apply String.ext
    have hd : s.data.length = 0 := h
    simpa using List.length_eq_zero.mp hd
  · intro h
    subst h
    rfl

/-! ## Claims -/

/-- C1: the claim that a check is evaluated and reported only if its bit is
set in the mode mask fails on the code.  Parsing no flags does yield kNone,
but the reporter block of Recurse still produces a finding for every true
check under mode kNone, and indeed under every mode mask, because its enable
test is the integer mode | kBit, which is never zero.  This theorem
evaluates the embedded reporter at the failing input. -/
theorem c1_empty_mode_still_reports :
    parseFlags kNone [] = Except.ok kNone
    ∧ reportLines "p" kNone true true true true
        = ["p has uncommited changes", "p has untracked changes",
            "p has unstaged changes", "p has unpushed changes"]
    ∧ (∀ mode : Nat, reportMesgs mode true true true true
        = ["has uncommited changes", "has untracked changes",
            "has unstaged changes", "has unpushed changes"]) := by
  refine ⟨rfl, by decide, ?_⟩
  intro mode
  simp [reportMesgs_unfold]

/-- C2: the claim that the flag -c is accepted and adds the uncommitted bit
fails on the code.  getopt is called with the option string "utspa", which
does not contain the letter c, so -c is classified as an unknown option and
takes the usage/exit-2 path; the case handler for c in the switch is
unreachable. -/
theorem c2_dash_c_is_unknown_flag :
    getoptClass 'c' = '?' ∧ parseFlags kNone ['c'] = Except.error 2 := by
  exact ⟨rfl, rfl⟩

/-- C3 counterexample: with the full mode mask and only the uncommitted
check true, the reporter emits the line with the message spelled
"has uncommited changes", not "has uncommitted changes" as the claim
states. -/
theorem c3_message_spelling_cex :
    reportLines "p" kAny true false false false = ["p has uncommited changes"]
    ∧ ("p has uncommited changes" : String) ≠ "p has uncommitted changes" := by
  exact ⟨by decide, by decide⟩

/-- C3 (amended): for every mode mask and path the reporter emits one line
per true check, in the fixed order uncommitted, untracked, unstaged,
unpushed, each line of the form path, space, message, where the messages
are "has uncommited changes" (spelled as in the code), "has untracked
changes", "has unstaged changes", and "has unpushed changes". -/
theorem c3_report_order_and_format (path : String) (mode : Nat)
    (uncommitted untracked unstaged unpushed : Bool) :
    reportLines path mode uncommitted untracked unstaged unpushed
      = (if uncommitted then [path ++ " " ++ "has uncommited changes"] else [])
        ++ (if untracked then [path ++ " " ++ "has untracked changes"] else [])
        ++ (if unstaged then [path ++ " " ++ "has unstaged changes"] else [])
        ++ (if unpushed then [path ++ " " ++ "has unpushed changes"] else []) := by
  simp only [reportLines, reportMesgs_unfold]
  cases uncommitted <;> cases untracked <;> cases unstaged <;> cases unpushed
    <;> simp

/-- C4: HasUnpushed performs its four resolution steps in order, each later
step receiving the trimmed output of earlier steps as its argument, returns
false as soon as any step's command fails, and otherwise returns true iff
the trimmed local commit identifier differs from the trimmed upstream
commit identifier. -/
theorem c4_hasUnpushed_steps (env : GitChecker.GitEnv) :
    GitChecker.hasUnpushed env = true ↔
      (env.symbolicRefHEAD.ret = 0
      ∧ (env.revParse (trimRightStr env.symbolicRefHEAD.out)).ret = 0
      ∧ (env.forEachRefUpstream (trimRightStr env.symbolicRefHEAD.out)).ret = 0
      ∧ (env.revParse (trimRightStr (env.forEachRefUpstream
            (trimRightStr env.symbolicRefHEAD.out)).out)).ret = 0
      ∧ trimRightStr (env.revParse (trimRightStr env.symbolicRefHEAD.out)).out
          ≠ trimRightStr (env.revParse (trimRightStr (env.forEachRefUpstream
              (trimRightStr env.symbolicRefHEAD.out)).out)).out) := by
  simp only [GitChecker.hasUnpushed]
  split_ifs with h1 h2 h3 h4
  · simp [h1]
  · simp [h2]
  · simp [h3]
  · simp [h4]
  · simp only [not_not, ne_eq, Decidable.not_not] at h1 h2 h3 h4
    simp [h1, h2, h3, h4]

/-- C5: for every directory whose stat calls succeed, if it contains a .git
subdirectory the walker invokes the status checker on it exactly once and
recurses into none of its children; otherwise it never invokes the checker
on the directory itself and recurses exactly once into each immediate child
directory entry other than the dot and dot-dot pseudo-entries, in readdir
order. -/
theorem c5_walker_git_boundary (path : String) (t : FSTree)
    (h : noStatFail t = true) :
    (t.hasGit = true → recurse path t = ⟨0, [path], []⟩)
    ∧ (t.hasGit = false →
        (recurse path t).calls = childCallPaths path t.entries
        ∧ path ∉ (recurse path t).checked
        ∧ ((dirEntryNames t.entries).Nodup →
            ∀ q ∈ childCallPaths path t.entries,
              (recurse path t).calls.count q = 1)) := by
  obtain ⟨sf, hg, es⟩ := t
  simp only [noStatFail, Bool.and_eq_true, Bool.not_eq_true'] at h
  obtain ⟨hsf, hes⟩ := h
  subst hsf
  constructor
  · intro hhg
    simp only [FSTree.hasGit] at hhg
    subst hhg
    simp [recurse]
  · intro hhg
    simp only [FSTree.hasGit] at hhg
    subst hhg
    simp only [FSTree.entries]
    have heq : recurse path (FSTree.node false false es) = recurseSubdirs path es := by
      simp [recurse]
    rw [heq]
    refine ⟨recurseSubdirs_calls_eq path es hes, ?_, ?_⟩
    · intro hmem
      have hlen := recurseSubdirs_checked_succ path es path hmem
      omega
    · intro hnodup q hq
      rw [recurseSubdirs_calls_eq path es hes]
      have hnd : (childCallPaths path es).Nodup := by
        simpa [childCallPaths] using
          List.Nodup.map (pathAppend_injective path) hnodup
      exact List.count_eq_one_of_mem hnd hq

/-- C5 witness: a repository root is checked once with no descent, and a
plain directory with one child directory produces exactly that one
recursive call. -/
theorem c5_walker_git_boundary_witness :
    recurse "A" (FSTree.node false true Entries.nil) = ⟨0, ["A"], []⟩
    ∧ (recurse "A" (FSTree.node false false
        (Entries.cons "b" true (FSTree.node false true Entries.nil)
          Entries.nil))).calls
      = childCallPaths "A"
          (Entries.cons "b" true (FSTree.node false true Entries.nil)
            Entries.nil) := by
  constructor
  · exact (c5_walker_git_boundary "A" (FSTree.node false true Entries.nil)
      (by decide)).1 rfl
  · exact ((c5_walker_git_boundary "A" (FSTree.node false false
      (Entries.cons "b" true (FSTree.node false true Entries.nil)
        Entries.nil)) (by decide)).2 rfl).1

/-- C6: HasUncommitted and HasUnstaged each return true iff the exit status
of their single underlying command is nonzero, and false exactly when it
exits zero; command error and actual difference both collapse to true. -/
theorem c6_exit_status_collapse :
    ∀ r : ExecResult,
      (GitChecker.hasUncommitted r = true ↔ r.ret ≠ 0)
      ∧ (GitChecker.hasUncommitted r = false ↔ r.ret = 0)
      ∧ (GitChecker.hasUnstaged r = true ↔ r.ret ≠ 0)
      ∧ (GitChecker.hasUnstaged r = false ↔ r.ret = 0) := by
  intro r
  simp [GitChecker.hasUncommitted, GitChecker.hasUnstaged, execInDir]

/-- C7: HasUntracked returns true iff the captured standard output of its
listing command is nonempty, and its result does not depend on the exit
status of that command. -/
theorem c7_untracked_ignores_exit_status :
    ∀ (ret1 ret2 : Nat) (out : String),
      (GitChecker.hasUntracked ⟨ret1, out⟩ = true ↔ out ≠ "")
      ∧ GitChecker.hasUntracked ⟨ret1, out⟩
          = GitChecker.hasUntracked ⟨ret2, out⟩ := by
  intro ret1 ret2 out
  constructor
  · simp [GitChecker.hasUntracked, execInDir, string_length_eq_zero_iff]
  · rfl

/-- C8: roots are processed left to right; if every root before a failing
one returns zero, the failing root's return value becomes the overall
result and no later root is visited, and a root whose stat fails returns 1
having checked nothing. -/
theorem c8_roots_fail_fast (pre : List (String × FSTree)) (p : String)
    (t : FSTree) (post : List (String × FSTree))
    (hpre : ∀ x ∈ pre, (recurse x.1 x.2).ret = 0)
    (hfail : (recurse p t).ret ≠ 0) :
    runRoots (pre ++ (p, t) :: post)
      = ((recurse p t).ret,
          (pre.map fun x => (recurse x.1 x.2).checked).flatten
            ++ (recurse p t).checked)
    ∧ (∀ (q : String) (hg : Bool) (es : Entries),
        recurse q (FSTree.node true hg es) = ⟨1, [], []⟩) := by
  constructor
  · revert hpre
    induction pre with
    | nil =>
      intro _
      simp [runRoots, hfail]
    | cons x pre ih =>
      intro hpre
      obtain ⟨xp, xt⟩ := x
      have hx : (recurse xp xt).ret = 0 := hpre (xp, xt) (by simp)
      have ih' := ih (fun y hy => hpre y (by simp [hy]))
      simp [runRoots, hx, ih', List.append_assoc]
  · intro q hg es
    simp [recurse]

/-- C8 witness: a first root with a failing stat yields exit code 1 and the
second root is never walked. -/
theorem c8_roots_fail_fast_witness :
    runRoots [("A", FSTree.node true false Entries.nil),
              ("B", FSTree.node false true Entries.nil)] = (1, []) := by
  have h := c8_roots_fail_fast [] "A" (FSTree.node true false Entries.nil)
      [("B", FSTree.node false true Entries.nil)] (by simp) (by decide)
  simpa [recurse] using h.1

/-- C9: with no positional arguments main scans the current directory, and
a scan in which every stat succeeds exits with code 0 however many findings
were printed. -/
theorem c9_default_root_exit_zero (args : List (String × FSTree))
    (cwd : FSTree) (hcwd : noStatFail cwd = true)
    (hargs : ∀ x ∈ args, noStatFail x.2 = true) :
    (args = [] → mainScan args cwd
        = ((recurse "." cwd).ret, (recurse "." cwd).checked))
    ∧ (mainScan args cwd).1 = 0 := by
  constructor
  · intro h
    subst h
    simp [mainScan]
  · by_cases h : args = []
    · subst h
      simp only [mainScan, if_pos rfl]
      exact recurse_ret_zero "." cwd hcwd
    · simp only [mainScan, if_neg h]
      exact runRoots_ret_zero args hargs

/-- C9 witness: with no arguments and a current directory that is itself a
repository, the scan is of the path dot and the exit code is 0. -/
theorem c9_default_root_exit_zero_witness :
    mainScan [] (FSTree.node false true Entries.nil)
      = ((recurse "." (FSTree.node false true Entries.nil)).ret,
          (recurse "." (FSTree.node false true Entries.nil)).checked)
    ∧ (mainScan [] (FSTree.node false true Entries.nil)).1 = 0 := by
  have h := c9_default_root_exit_zero [] (FSTree.node false true Entries.nil)
      (by decide) (by simp)
  exact ⟨h.1 rfl, h.2⟩

/-- C10: TrimRight returns the longest prefix of its input that does not
end in a whitespace character, and it is idempotent. -/
theorem c10_trimRight_longest_nonspace (s : List Char) :
    trimRight s <+: s
    ∧ (∀ c, (trimRight s).getLast? = some c → isSpaceChar c = false)
    ∧ (∀ p, p <+: s → (∀ c, p.getLast? = some c → isSpaceChar c = false) →
        p.length ≤ (trimRight s).length)
    ∧ trimRight (trimRight s) = trimRight s := by
  refine ⟨?_, ?_, ?_, ?_⟩
  · simp only [trimRight]
    rw [← List.reverse_suffix, List.reverse_reverse]
    exact List.dropWhile_suffix _
  · intro c hc
    simp only [trimRight, List.getLast?_reverse] at hc
    exact dropWhile_head_not isSpaceChar _ c hc
  · intro p hp hlast
    have hsuf : p.reverse <:+ s.reverse := List.reverse_suffix.mpr hp
    have hhd : ∀ c, p.reverse.head? = some c → isSpaceChar c = false := by
      intro c hc
      rw [List.head?_reverse] at hc
      exact hlast c hc
    have hle := suffix_length_le_dropWhile isSpaceChar s.reverse p.reverse hsuf hhd
    simpa [trimRight] using hle
  · simp [trimRight, List.reverse_reverse, dropWhile_dropWhile]
